import Mathlib

/-!
Verification of the route-composition engine of the Kremlik repository
(file model_trainer.py, class SmartCityGuideTrainer).

The engine is embedded shallowly:
* machine reals are modelled by rational numbers;
* the external geodesic-distance capability is a parameter of type
  Coord → Coord → ℚ (the code treats it as an opaque symmetric oracle);
* the external embedding capability is abstracted by pairing each catalog
  entry with its cosine-similarity score for the query;
* Python dictionary records are modelled by structures; the optional
  time_required key of a raw place dictionary is modelled by an Option
  field, and the key lookup by an Except computation.
-/

/-- A latitude/longitude pair, as stored in the coords field of a place. -/
structure Coord where
  lat : ℚ
  lon : ℚ
deriving DecidableEq, Repr

/-- The external geodesic-distance capability: geodesic(a, b).km. -/
abbrev GeoDist : Type := Coord → Coord → ℚ

/-- A raw catalog entry as built by load_places_from_excel: the fields that
the route-composition engine reads are the identity and the coordinates.
Two rows with distinct ids stay distinct records, mirroring Python
dictionary equality for catalog rows with unique ids. -/
structure Place where
  id : ℕ
  coords : Coord
deriving DecidableEq, Repr

/-- calculate_walking_time (model_trainer.py lines 86-89): minutes to walk
a distance at 4 km/h, clamped between 5 and 120 minutes. -/
def calculate_walking_time (distance_km : ℚ) : ℚ :=
  max 5 (min 120 (distance_km / 4 * 60))

/-- calculate_time_for_place (lines 254-263): the tiered dwell time, in
hours, as a step function of the similarity score. -/
def calculate_time_for_place (similarity_score : ℚ) : ℚ :=
  if similarity_score > 0.7 then 0.4
  else if similarity_score > 0.5 then 0.3
  else if similarity_score > 0.3 then 0.25
  else 0.2

/-- The record built for each place in find_optimal_places (lines 157-168):
the catalog entry together with its similarity score, its distance from the
start, the walking time from the start in hours, and the dwell time. -/
structure ScoredPlace where
  id : ℕ
  coords : Coord
  similarity_score : ℚ
  distance_to_start : ℚ
  walk_time_to_place : ℚ
  time_required : ℚ
deriving DecidableEq, Repr

/-- Building one scored record (lines 159-168). -/
def mkScoredPlace (d : GeoDist) (start_coords : Coord) (p : Place) (sim : ℚ) :
    ScoredPlace :=
  let dist_to_start := d start_coords p.coords
  { id := p.id
    coords := p.coords
    similarity_score := sim
    distance_to_start := dist_to_start
    walk_time_to_place := calculate_walking_time dist_to_start / 60
    time_required := calculate_time_for_place sim }

/-- places_with_scores before sorting (lines 157-168): the catalog is given
as a list of places paired with their similarity scores. -/
def scoredPlaces (d : GeoDist) (start_coords : Coord)
    (catalog : List (Place × ℚ)) : List ScoredPlace :=
  catalog.map fun pq => mkScoredPlace d start_coords pq.1 pq.2

/-- The comparison used by the stable sort at line 171: the Python key is
the pair (-similarity_score, distance_to_start), ordered lexicographically
ascending, so a sorts no later than b iff a has strictly larger similarity,
or equal similarity and no larger distance from the start. -/
def candidateLE (a b : ScoredPlace) : Bool :=
  decide (b.similarity_score < a.similarity_score ∨
    (a.similarity_score = b.similarity_score ∧
      a.distance_to_start ≤ b.distance_to_start))

/-- The stable sort of line 171. -/
def sortCandidates (l : List ScoredPlace) : List ScoredPlace :=
  l.mergeSort candidateLE

/-- The ranked candidate list walked by every selection tier. -/
def rankedCandidates (d : GeoDist) (start_coords : Coord)
    (catalog : List (Place × ℚ)) : List ScoredPlace :=
  sortCandidates (scoredPlaces d start_coords catalog)

/-- The walking-minute loop of calculate_total_route_time (lines 105-114):
one clamped leg from the current position to each successive place. -/
def route_walking_minutes (d : GeoDist) : Coord → List ScoredPlace → ℚ
  | _, [] => 0
  | cur, p :: rest =>
    calculate_walking_time (d cur p.coords) + route_walking_minutes d p.coords rest

/-- calculate_total_route_time (lines 97-118): returns the triple
(total route hours, total walking minutes, total walking hours). -/
def calculate_total_route_time (d : GeoDist) (places : List ScoredPlace)
    (start_coords : Coord) : ℚ × ℚ × ℚ :=
  if places.isEmpty then (0, 0, 0)
  else
    let total_visit_time := (places.map ScoredPlace.time_required).sum
    let total_walking_time_min := route_walking_minutes d start_coords places
    (total_visit_time + total_walking_time_min / 60,
      total_walking_time_min, total_walking_time_min / 60)

/-- The marginal time of a candidate against the current accumulator
(lines 188-199 and 229-236): dwell time plus the transition, from the start
when the accumulator is empty, otherwise from the last accepted place. -/
def marginal_time (d : GeoDist) (combination : List ScoredPlace)
    (place : ScoredPlace) : ℚ :=
  place.time_required +
    match combination.getLast? with
    | none => place.walk_time_to_place
    | some last => calculate_walking_time (d last.coords place.coords) / 60

/-- The greedy fill shared by the Tier A passes (lines 178-204) and Tier B
(lines 219-241): walk the ranked list once, skip candidates already taken,
accept a candidate iff the running total plus its marginal time stays within
max_time, and stop once target_count places are accepted. -/
def fill_loop (d : GeoDist) (max_time : ℚ) (target_count : ℕ) :
    List ScoredPlace → List ScoredPlace → ℚ → List ScoredPlace
  | [], combination, _ => combination
  | place :: rest, combination, current_total =>
    if target_count ≤ combination.length then combination
    else if place ∈ combination then
      fill_loop d max_time target_count rest combination current_total
    else if current_total + marginal_time d combination place ≤ max_time then
      fill_loop d max_time target_count rest (combination ++ [place])
        (current_total + marginal_time d combination place)
    else fill_loop d max_time target_count rest combination current_total

/-- The distance of a total to the midpoint of the window (line 212). -/
def midpoint_diff (min_time max_time total : ℚ) : ℚ :=
  |total - (min_time + max_time) / 2|

/-- One Tier A pass (lines 178-215 body): the greedy fill for one target
count, kept as a candidate result iff it has at least 3 places and its exact
accumulated total lies within the window; paired with its midpoint distance. -/
def tierA_candidate (d : GeoDist) (min_time max_time : ℚ) (start_coords : Coord)
    (sorted : List ScoredPlace) (target_count : ℕ) :
    Option (List ScoredPlace × ℚ) :=
  let combination := fill_loop d max_time target_count sorted [] 0
  if 3 ≤ combination.length then
    let total := (calculate_total_route_time d combination start_coords).1
    if min_time ≤ total ∧ total ≤ max_time then
      some (combination, midpoint_diff min_time max_time total)
    else none
  else none

/-- Folding one Tier A pass into the best-so-far (lines 206-215): a new
candidate replaces the best only when its midpoint distance is strictly
smaller. -/
def tierA_step (d : GeoDist) (min_time max_time : ℚ) (start_coords : Coord)
    (sorted : List ScoredPlace) (best : Option (List ScoredPlace × ℚ))
    (target_count : ℕ) : Option (List ScoredPlace × ℚ) :=
  match tierA_candidate d min_time max_time start_coords sorted target_count,
      best with
  | none, best => best
  | some cd, none => some cd
  | some cd, some bd => if cd.2 < bd.2 then some cd else some bd

/-- Tier A (lines 173-215): the three passes with target counts 5, 4, 3,
in that order. -/
def tierA_select (d : GeoDist) (min_time max_time : ℚ) (start_coords : Coord)
    (sorted : List ScoredPlace) : Option (List ScoredPlace × ℚ) :=
  [5, 4, 3].foldl (tierA_step d min_time max_time start_coords sorted) none

/-- Tier C top-up loop (lines 246-250): append top-ranked unused candidates,
ignoring the budget, until the combination has 3 places. -/
def top_up : List ScoredPlace → List ScoredPlace → List ScoredPlace
  | [], combination => combination
  | place :: rest, combination =>
    if 3 ≤ combination.length then combination
    else if place ∈ combination then top_up rest combination
    else top_up rest (combination ++ [place])

/-- The three selection tiers applied to the ranked candidate list
(lines 173-252): Tier A, else the Tier B best-effort fill capped at 5, then
the Tier C minimum guarantee when fewer than 3 places were kept and the
catalog holds at least 3 entries. -/
def select_from_ranked (d : GeoDist) (min_time max_time : ℚ)
    (start_coords : Coord) (catalog_size : ℕ) (sorted : List ScoredPlace) :
    List ScoredPlace :=
  let best :=
    match tierA_select d min_time max_time start_coords sorted with
    | some cd => cd.1
    | none => fill_loop d max_time 5 sorted [] 0
  if best.length < 3 ∧ 3 ≤ catalog_size then top_up sorted best else best

/-- find_optimal_places (lines 150-252). -/
def find_optimal_places (d : GeoDist) (catalog : List (Place × ℚ))
    (min_time max_time : ℚ) (start_coords : Coord) : List ScoredPlace :=
  if catalog.isEmpty then []
  else
    select_from_ranked d min_time max_time start_coords
      (scoredPlaces d start_coords catalog).length
      (rankedCandidates d start_coords catalog)

/-- The Python min over the unvisited nodes (line 141): scan the remaining
candidates, keeping the earlier element on ties (min replaces only on a
strictly smaller key). -/
def pick_min {α : Type} (d : GeoDist) (coordsOf : α → Coord) (cur : Coord) :
    α → List α → α
  | best, [] => best
  | best, x :: rest =>
    if d cur (coordsOf x) < d cur (coordsOf best) then
      pick_min d coordsOf cur x rest
    else pick_min d coordsOf cur best rest

/-- greedy_tsp (lines 135-145) restricted to the non-start nodes: repeatedly
move to the nearest unvisited place. The fuel argument is instantiated with
the length of the list, which bounds the recursion depth. -/
def greedy_tsp {α : Type} [DecidableEq α] (d : GeoDist) (coordsOf : α → Coord) :
    ℕ → Coord → List α → List α
  | 0, _, _ => []
  | _ + 1, _, [] => []
  | n + 1, cur, x :: rest =>
    let best := pick_min d coordsOf cur x rest
    best :: greedy_tsp d coordsOf n (coordsOf best) ((x :: rest).erase best)

/-- optimize_route_sequence (lines 120-148): lists with at most one place
are returned unchanged; otherwise the greedy nearest-neighbour tour anchored
at the start, with the start excluded from the returned ordering. -/
def optimize_route_sequence {α : Type} [DecidableEq α] (d : GeoDist)
    (coordsOf : α → Coord) (places : List α) (start_coords : Coord) :
    List α :=
  if places.length ≤ 1 then places
  else greedy_tsp d coordsOf places.length start_coords places

/-- A tour is a greedy nearest-neighbour visit order of the remaining
places: each visited place is a member of the remaining set that is nearest
to the current position, and the tour exhausts the set. -/
def IsGreedyTour {α : Type} [DecidableEq α] (d : GeoDist) (coordsOf : α → Coord) :
    Coord → List α → List α → Prop
  | _, [], remaining => remaining = []
  | cur, t :: ts, remaining =>
    t ∈ remaining ∧
      (∀ p ∈ remaining, d cur (coordsOf t) ≤ d cur (coordsOf p)) ∧
      IsGreedyTour d coordsOf (coordsOf t) ts (remaining.erase t)

/-- The clamp function named by the specification of the walking-time
model: clamp(x, lo, hi). -/
def clampQ (x lo hi : ℚ) : ℚ :=
  max lo (min hi x)

/-- A place dictionary as passed to generate_route_plan (lines 468-480):
raw catalog entries built by load_places_from_excel carry no time_required
key, while scored candidates do; the optional key is an Option field. -/
structure PlaceRec where
  id : ℕ
  coords : Coord
  time_required? : Option ℚ
deriving DecidableEq, Repr

/-- The dictionary lookup place[time_required] (lines 101 and 480): on a
record without the key the lookup takes its missing-key error branch. -/
def get_time_required (p : PlaceRec) : Except String ℚ :=
  match p.time_required? with
  | some t => Except.ok t
  | none => Except.error "KeyError: time_required"

/-- sum(place[time_required] for place in places) (line 101): the sum stops
at the first record lacking the key. -/
def sum_time_required : List PlaceRec → Except String ℚ
  | [] => Except.ok 0
  | p :: rest => do
    let t ← get_time_required p
    let s ← sum_time_required rest
    Except.ok (t + s)

/-- The walking-minute loop of calculate_total_route_time over dictionary
records. -/
def route_walking_minutes_rec (d : GeoDist) : Coord → List PlaceRec → ℚ
  | _, [] => 0
  | cur, p :: rest =>
    calculate_walking_time (d cur p.coords) +
      route_walking_minutes_rec d p.coords rest

/-- calculate_total_route_time (lines 97-118) over dictionary records, with
the fallible key lookup made explicit. -/
def calculate_total_route_time_rec (d : GeoDist) (places : List PlaceRec)
    (start_coords : Coord) : Except String (ℚ × ℚ × ℚ) :=
  if places.isEmpty then Except.ok (0, 0, 0)
  else do
    let total_visit_time ← sum_time_required places
    let total_walking_time_min := route_walking_minutes_rec d start_coords places
    Except.ok (total_visit_time + total_walking_time_min / 60,
      total_walking_time_min, total_walking_time_min / 60)

/-- The computational head of generate_route_plan (lines 468-480): an input
of fewer than 3 places is discarded for the first 5 raw catalog entries
(when the catalog itself is empty the call aborts with a message instead),
an input longer than 5 places is truncated, the kept list is resequenced by
optimize_route_sequence, and its total route time is computed. The later
lines of the function only format messages out of these values, so the
first failure inside this prefix is the failure of the whole call. -/
def generate_route_plan_totals (d : GeoDist) (catalog : List PlaceRec)
    (places : List PlaceRec) (start_coords : Coord) :
    Except String (ℚ × ℚ × ℚ) :=
  if places.length < 3 then
    if catalog.isEmpty then
      Except.error "Недостаточно данных для построения маршрута"
    else
      calculate_total_route_time_rec d
        (optimize_route_sequence d PlaceRec.coords
          (if 5 < (catalog.take 5).length then (catalog.take 5).take 5
            else catalog.take 5) start_coords)
        start_coords
  else
    calculate_total_route_time_rec d
      (optimize_route_sequence d PlaceRec.coords
        (if 5 < places.length then places.take 5 else places) start_coords)
      start_coords

/-- C5: for every non-negative distance, calculate_walking_time is the
clamp of the linear walking time distance / 4 km/h * 60 to [5, 120]
minutes; at 0.1 km it returns the 5-minute floor, at 50 km the 120-minute
ceiling, and at 4 km the unclamped linear value 60. -/
theorem calculate_walking_time_clamp (distance_km : ℚ)
    (hd : 0 ≤ distance_km) :
    calculate_walking_time distance_km = clampQ (distance_km / 4 * 60) 5 120 ∧
    calculate_walking_time 0.1 = 5 ∧
    calculate_walking_time 50 = 120 ∧
    calculate_walking_time 4 = 60 := by
  refine ⟨rfl, ?_, ?_, ?_⟩ <;> norm_num [calculate_walking_time]

/-- Witness for C5 at the concrete distance 2 km. -/
theorem calculate_walking_time_clamp_witness :
    calculate_walking_time 2 = clampQ ((2 : ℚ) / 4 * 60) 5 120 :=
  (calculate_walking_time_clamp 2 (by norm_num)).1

/-- C4, counterexample: the claim says similarity exactly 0.5 receives a
dwell time of 0.3 hours, but the second tier bound of the code is the
strict comparison similarity_score > 0.5, so similarity 0.5 falls through
to the third tier and receives 0.25 hours. -/
theorem calculate_time_for_place_half_counterexample :
    calculate_time_for_place 0.5 = 0.25 ∧ calculate_time_for_place 0.5 ≠ 0.3 := by
  norm_num [calculate_time_for_place]

/-- C4, amended: calculate_time_for_place is the 4-tier step function of the
similarity score: above 0.7 the dwell time is 0.4 hours, above 0.5 it is
0.3, above 0.3 it is 0.25, and otherwise 0.2; in particular similarity 0.75
receives 0.4, similarity exactly 0.5 falls below the exclusive bound of the
0.3 tier and receives 0.25, and similarity 0.1 receives 0.2. -/
theorem calculate_time_for_place_tiers (s : ℚ) :
    (0.7 < s → calculate_time_for_place s = 0.4) ∧
    (s ≤ 0.7 → 0.5 < s → calculate_time_for_place s = 0.3) ∧
    (s ≤ 0.5 → 0.3 < s → calculate_time_for_place s = 0.25) ∧
    (s ≤ 0.3 → calculate_time_for_place s = 0.2) ∧
    calculate_time_for_place 0.75 = 0.4 ∧
    calculate_time_for_place 0.5 = 0.25 ∧
    calculate_time_for_place 0.1 = 0.2 := by
  unfold calculate_time_for_place
  refine ⟨?_, ?_, ?_, ?_, by norm_num, by norm_num, by norm_num⟩ <;>
    intros <;> split_ifs <;> first | rfl | linarith

/-- Witness for the amended C4 at the concrete similarity 0.75. -/
theorem calculate_time_for_place_tiers_witness :
    calculate_time_for_place 0.75 = 0.4 :=
  (calculate_time_for_place_tiers 0.75).1 (by norm_num)

/-- The walking-minute loop equals the clamped leg from the current position
to the first place plus the clamped legs over consecutive pairs. -/
lemma route_walking_minutes_cons (d : GeoDist) :
    ∀ (l : List ScoredPlace) (cur : Coord) (p : ScoredPlace),
      route_walking_minutes d cur (p :: l) =
        calculate_walking_time (d cur p.coords) +
          (((p :: l).zip l).map
            (fun pq => calculate_walking_time (d pq.1.coords pq.2.coords))).sum := by
  intro l
  induction l with
  | nil => intro cur p; simp [route_walking_minutes]
  | cons q rest ih =>
    intro cur p
    have hq := ih p.coords q
    simp only [route_walking_minutes] at hq ⊢
    rw [hq]
    simp only [List.zip_cons_cons, List.map_cons, List.sum_cons]
    try ring

/-- C9: on a non-empty ordered list, calculate_total_route_time returns the
triple whose walking minutes are the sum of the clamped walking times over
the start-to-first leg and each consecutive pair, whose first component is
the sum of the dwell times of the places plus those walking minutes divided
by 60, and whose last component is the walking minutes divided by 60. -/
theorem calculate_total_route_time_spec (d : GeoDist) (p : ScoredPlace)
    (rest : List ScoredPlace) (start_coords : Coord) :
    calculate_total_route_time d (p :: rest) start_coords =
      (let walking_minutes := calculate_walking_time (d start_coords p.coords) +
          (((p :: rest).zip rest).map
            (fun pq => calculate_walking_time (d pq.1.coords pq.2.coords))).sum
      (((p :: rest).map ScoredPlace.time_required).sum + walking_minutes / 60,
        walking_minutes, walking_minutes / 60)) := by
  simp only [calculate_total_route_time, List.isEmpty_cons, Bool.false_eq_true,
    if_false, route_walking_minutes_cons]

/-- C8: the composition pipeline is deterministic: two calls of
find_optimal_places on equal inputs return equal lists, and two calls of
optimize_route_sequence on equal place lists and equal starts return equal
tours; the embedding of the pipeline is a pure function with no hidden
randomness. -/
theorem pipeline_deterministic (d d' : GeoDist)
    (catalog catalog' : List (Place × ℚ)) (mn mn' mx mx' : ℚ) (s s' : Coord)
    (pl pl' : List ScoredPlace)
    (hd : d = d') (hc : catalog = catalog') (hmn : mn = mn') (hmx : mx = mx')
    (hs : s = s') (hpl : pl = pl') :
    find_optimal_places d catalog mn mx s =
      find_optimal_places d' catalog' mn' mx' s' ∧
    optimize_route_sequence d ScoredPlace.coords pl s =
      optimize_route_sequence d' ScoredPlace.coords pl' s' := by
  subst hd hc hmn hmx hs hpl
  exact ⟨rfl, rfl⟩

/-- Witness for C8 at a concrete catalog, window, start and place list. -/
theorem pipeline_deterministic_witness :
    find_optimal_places (fun _ _ => 0) [(⟨1, ⟨0, 0⟩⟩, 0)] 1 2 ⟨0, 0⟩ =
      find_optimal_places (fun _ _ => 0) [(⟨1, ⟨0, 0⟩⟩, 0)] 1 2 ⟨0, 0⟩ ∧
    optimize_route_sequence (fun _ _ => 0) ScoredPlace.coords
        [⟨1, ⟨0, 0⟩, 0, 0, 0, 0⟩] ⟨0, 0⟩ =
      optimize_route_sequence (fun _ _ => 0) ScoredPlace.coords
        [⟨1, ⟨0, 0⟩, 0, 0, 0, 0⟩] ⟨0, 0⟩ :=
  pipeline_deterministic _ _ _ _ _ _ _ _ _ _ _ _ rfl rfl rfl rfl rfl rfl

/-- The scan of the unvisited candidates returns one of them. -/
lemma pick_min_mem {α : Type} (d : GeoDist) (co : α → Coord) (cur : Coord) :
    ∀ (l : List α) (b : α), pick_min d co cur b l ∈ b :: l := by
  intro l
  induction l with
  | nil => intro b; simp [pick_min]
  | cons x rest ih =>
    intro b
    simp only [pick_min]
    split_ifs
    · rcases List.mem_cons.mp (ih x) with h | h
      · simp [h]
      · simp [List.mem_cons, h]
    · rcases List.mem_cons.mp (ih b) with h | h
      · simp [h]
      · simp [List.mem_cons, h]

/-- The scan of the unvisited candidates returns a nearest one: min with a
strict comparison keeps the earliest minimizer. -/
lemma pick_min_le {α : Type} (d : GeoDist) (co : α → Coord) (cur : Coord) :
    ∀ (l : List α) (b : α), ∀ y ∈ b :: l,
      d cur (co (pick_min d co cur b l)) ≤ d cur (co y) := by
  intro l
  induction l with
  | nil =>
    intro b y hy
    rcases List.mem_cons.mp hy with rfl | h
    · simp [pick_min]
    · simp at h
  | cons x rest ih =>
    intro b y hy
    simp only [pick_min]
    split_ifs with hlt
    · rcases List.mem_cons.mp hy with heq | hy'
      · rw [heq]
        exact (ih x x (by simp)).trans hlt.le
      · exact ih x y hy'
    · push_neg at hlt
      rcases List.mem_cons.mp hy with heq | hy'
      · rw [heq]
        exact ih b b (by simp)
      · rcases List.mem_cons.mp hy' with heq | hy''
        · rw [heq]
          exact (ih b b (by simp)).trans hlt
        · exact ih b y (List.mem_cons_of_mem _ hy'')

/-- With enough fuel, greedy_tsp produces a greedy nearest-neighbour visit
order of its input list. -/
lemma greedy_tsp_isGreedyTour {α : Type} [DecidableEq α] (d : GeoDist)
    (co : α → Coord) :
    ∀ (n : ℕ) (l : List α) (cur : Coord), l.length ≤ n →
      IsGreedyTour d co cur (greedy_tsp d co n cur l) l := by
  intro n
  induction n with
  | zero =>
    intro l cur hl
    have hnil : l = [] := List.eq_nil_of_length_eq_zero (Nat.le_zero.mp hl)
    subst hnil
    simp [greedy_tsp, IsGreedyTour]
  | succ n ih =>
    intro l cur hl
    cases l with
    | nil => simp [greedy_tsp, IsGreedyTour]
    | cons x rest =>
      simp only [greedy_tsp, IsGreedyTour]
      refine ⟨pick_min_mem d co cur rest x, pick_min_le d co cur rest x, ?_⟩
      apply ih
      rw [List.length_erase_of_mem (pick_min_mem d co cur rest x)]
      simp only [List.length_cons] at hl ⊢
      omega

/-- C6: for every non-empty list of places and every start coordinate, the
tour returned by optimize_route_sequence is a greedy nearest-neighbour
order: the first visited place is a nearest member of the set to the start,
each subsequent place is a nearest not-yet-visited member to the position
of the previously visited place, and the tour exhausts the set; the start
itself is excluded from the returned ordering. -/
theorem optimize_route_sequence_greedy (d : GeoDist)
    (places : List ScoredPlace) (start_coords : Coord) (h : places ≠ []) :
    IsGreedyTour d ScoredPlace.coords start_coords
      (optimize_route_sequence d ScoredPlace.coords places start_coords)
      places := by
  unfold optimize_route_sequence
  split_ifs with hle
  · cases places with
    | nil => exact absurd rfl h
    | cons p rest =>
      cases rest with
      | nil => simp [IsGreedyTour]
      | cons q r => simp at hle
  · exact greedy_tsp_isGreedyTour d _ places.length places start_coords le_rfl

/-- Witness for C6 at a concrete two-place list. -/
theorem optimize_route_sequence_greedy_witness :
    IsGreedyTour (fun _ _ => 0) ScoredPlace.coords ⟨0, 0⟩
      (optimize_route_sequence (fun _ _ => 0) ScoredPlace.coords
        [⟨1, ⟨0, 0⟩, 0, 0, 0, 0⟩, ⟨2, ⟨1, 1⟩, 0, 0, 0, 0⟩] ⟨0, 0⟩)
      [⟨1, ⟨0, 0⟩, 0, 0, 0, 0⟩, ⟨2, ⟨1, 1⟩, 0, 0, 0, 0⟩] :=
  optimize_route_sequence_greedy _ _ _ (by simp)

/-- The greedy fill only ever appends to its accumulator. -/
lemma fill_loop_append (d : GeoDist) (mx : ℚ) (t : ℕ) :
    ∀ (l comb : List ScoredPlace) (cur : ℚ),
      ∃ tail, fill_loop d mx t l comb cur = comb ++ tail := by
  intro l
  induction l with
  | nil => intro comb cur; exact ⟨[], by simp [fill_loop]⟩
  | cons p rest ih =>
    intro comb cur
    simp only [fill_loop]
    split_ifs with h1 h2 h3
    · exact ⟨[], by simp⟩
    · exact ih comb cur
    · obtain ⟨tail, ht⟩ := ih (comb ++ [p]) (cur + marginal_time d comb p)
      exact ⟨p :: tail, by rw [ht, List.append_assoc]; rfl⟩
    · exact ih comb cur

/-- Every member of the greedy fill result comes from the accumulator or
from the walked list. -/
lemma fill_loop_subset (d : GeoDist) (mx : ℚ) (t : ℕ) :
    ∀ (l comb : List ScoredPlace) (cur : ℚ) (q : ScoredPlace),
      q ∈ fill_loop d mx t l comb cur → q ∈ comb ∨ q ∈ l := by
  intro l
  induction l with
  | nil => intro comb cur q hq; rw [fill_loop] at hq; exact Or.inl hq
  | cons p rest ih =>
    intro comb cur q hq
    rw [fill_loop] at hq
    split_ifs at hq with h1 h2 h3
    · exact Or.inl hq
    · rcases ih comb cur q hq with h | h
      · exact Or.inl h
      · exact Or.inr (List.mem_cons_of_mem _ h)
    · rcases ih (comb ++ [p]) _ q hq with h | h
      · rcases List.mem_append.mp h with h' | h'
        · exact Or.inl h'
        · simp only [List.mem_singleton] at h'
          exact Or.inr (by rw [h']; exact List.mem_cons_self _ _)
      · exact Or.inr (List.mem_cons_of_mem _ h)
    · rcases ih comb cur q hq with h | h
      · exact Or.inl h
      · exact Or.inr (List.mem_cons_of_mem _ h)

/-- The greedy fill keeps the accumulator free of duplicates: a candidate
already in the accumulator is skipped. -/
lemma fill_loop_nodup (d : GeoDist) (mx : ℚ) (t : ℕ) :
    ∀ (l comb : List ScoredPlace) (cur : ℚ), comb.Nodup →
      (fill_loop d mx t l comb cur).Nodup := by
  intro l
  induction l with
  | nil => intro comb cur hc; rw [fill_loop]; exact hc
  | cons p rest ih =>
    intro comb cur hc
    rw [fill_loop]
    split_ifs with h1 h2 h3
    · exact hc
    · exact ih comb cur hc
    · refine ih _ _ ?_
      rw [List.nodup_append]
      exact ⟨hc, List.nodup_singleton p, by
        intro a ha hap
        simp only [List.mem_singleton] at hap
        exact h2 (hap ▸ ha)⟩
    · exact ih comb cur hc

/-- The greedy fill never exceeds the larger of the accumulator size and
the target count. -/
lemma fill_loop_length_le (d : GeoDist) (mx : ℚ) (t : ℕ) :
    ∀ (l comb : List ScoredPlace) (cur : ℚ),
      (fill_loop d mx t l comb cur).length ≤ max comb.length t := by
  intro l
  induction l with
  | nil => intro comb cur; rw [fill_loop]; exact le_max_left _ _
  | cons p rest ih =>
    intro comb cur
    rw [fill_loop]
    split_ifs with h1 h2 h3
    · exact le_max_left _ _
    · exact ih comb cur
    · have := ih (comb ++ [p]) (cur + marginal_time d comb p)
      simp only [List.length_append, List.length_singleton] at this
      omega
    · exact ih comb cur

/-- The greedy fill with an empty accumulator accepts some place as soon as
one place fits the budget together with its walk from the start. -/
lemma fill_loop_ne_nil (d : GeoDist) (mx : ℚ) (t : ℕ) (ht : 1 ≤ t) :
    ∀ l : List ScoredPlace,
      (∃ p ∈ l, p.time_required + p.walk_time_to_place ≤ mx) →
      fill_loop d mx t l [] 0 ≠ [] := by
  intro l
  induction l with
  | nil => rintro ⟨p, hp, -⟩; simp at hp
  | cons p rest ih =>
    rintro ⟨q, hq, hfits⟩
    rw [fill_loop]
    rw [if_neg (by simp; omega), if_neg (by simp)]
    by_cases hacc : 0 + marginal_time d [] p ≤ mx
    · rw [if_pos hacc]
      obtain ⟨tail, htail⟩ := fill_loop_append d mx t rest [p] (0 + marginal_time d [] p)
      simp only [List.nil_append]
      rw [htail]
      simp
    · rw [if_neg hacc]
      apply ih
      rcases List.mem_cons.mp hq with heq | hq'
      · exfalso
        apply hacc
        subst heq
        simpa [marginal_time] using hfits
      · exact ⟨q, hq', hfits⟩

/-- The Tier C top-up only ever appends to its accumulator. -/
lemma top_up_append :
    ∀ (l comb : List ScoredPlace), ∃ tail, top_up l comb = comb ++ tail := by
  intro l
  induction l with
  | nil => intro comb; exact ⟨[], by simp [top_up]⟩
  | cons p rest ih =>
    intro comb
    rw [top_up]
    split_ifs with h1 h2
    · exact ⟨[], by simp⟩
    · exact ih comb
    · obtain ⟨tail, ht⟩ := ih (comb ++ [p])
      exact ⟨p :: tail, by rw [ht, List.append_assoc]; rfl⟩

/-- Every member of the Tier C result comes from the accumulator or from
the ranked list. -/
lemma top_up_subset :
    ∀ (l comb : List ScoredPlace) (q : ScoredPlace),
      q ∈ top_up l comb → q ∈ comb ∨ q ∈ l := by
  intro l
  induction l with
  | nil => intro comb q hq; rw [top_up] at hq; exact Or.inl hq
  | cons p rest ih =>
    intro comb q hq
    rw [top_up] at hq
    split_ifs at hq with h1 h2
    · exact Or.inl hq
    · rcases ih comb q hq with h | h
      · exact Or.inl h
      · exact Or.inr (List.mem_cons_of_mem _ h)
    · rcases ih (comb ++ [p]) q hq with h | h
      · rcases List.mem_append.mp h with h' | h'
        · exact Or.inl h'
        · simp only [List.mem_singleton] at h'
          exact Or.inr (by rw [h']; exact List.mem_cons_self _ _)
      · exact Or.inr (List.mem_cons_of_mem _ h)

/-- The Tier C top-up keeps the accumulator free of duplicates. -/
lemma top_up_nodup :
    ∀ (l comb : List ScoredPlace), comb.Nodup → (top_up l comb).Nodup := by
  intro l
  induction l with
  | nil => intro comb hc; rw [top_up]; exact hc
  | cons p rest ih =>
    intro comb hc
    rw [top_up]
    split_ifs with h1 h2
    · exact hc
    · exact ih comb hc
    · refine ih _ ?_
      rw [List.nodup_append]
      exact ⟨hc, List.nodup_singleton p, by
        intro a ha hap
        simp only [List.mem_singleton] at hap
        exact h2 (hap ▸ ha)⟩

/-- The Tier C top-up stops growing at 3 places. -/
lemma top_up_length_le :
    ∀ (l comb : List ScoredPlace),
      (top_up l comb).length ≤ max comb.length 3 := by
  intro l
  induction l with
  | nil => intro comb; rw [top_up]; exact le_max_left _ _
  | cons p rest ih =>
    intro comb
    rw [top_up]
    split_ifs with h1 h2
    · exact le_max_left _ _
    · exact ih comb
    · have := ih (comb ++ [p])
      simp only [List.length_append, List.length_singleton] at this
      omega

/-- When the Tier C result still has fewer than 3 places, the walked list
has been exhausted into it. -/
lemma top_up_covers :
    ∀ (l comb : List ScoredPlace), (top_up l comb).length < 3 →
      ∀ q ∈ l, q ∈ top_up l comb := by
  intro l
  induction l with
  | nil => intro comb _ q hq; simp at hq
  | cons p rest ih =>
    intro comb hlen q hq
    rw [top_up] at hlen ⊢
    split_ifs at hlen ⊢ with h1 h2
    · omega
    · rcases List.mem_cons.mp hq with heq | hq'
      · obtain ⟨tail, ht⟩ := top_up_append rest comb
        rw [ht]
        exact List.mem_append.mpr (Or.inl (heq ▸ h2))
      · exact ih comb hlen q hq'
    · rcases List.mem_cons.mp hq with heq | hq'
      · obtain ⟨tail, ht⟩ := top_up_append rest (comb ++ [p])
        rw [ht, heq]
        simp
      · exact ih (comb ++ [p]) hlen q hq'

/-- The Tier C top-up returns a non-empty list whenever its accumulator or
the walked list is non-empty. -/
lemma top_up_ne_nil (l comb : List ScoredPlace)
    (h : comb ≠ [] ∨ l ≠ []) : top_up l comb ≠ [] := by
  rcases h with hc | hl
  · obtain ⟨tail, ht⟩ := top_up_append l comb
    rw [ht]
    intro hcontr
    exact hc (List.append_eq_nil.mp hcontr).1
  · cases l with
    | nil => exact absurd rfl hl
    | cons p rest =>
      rw [top_up]
      split_ifs with h1 h2
      · intro hcontr
        rw [hcontr] at h1
        simp at h1
      · obtain ⟨tail, ht⟩ := top_up_append rest comb
        rw [ht]
        intro hcontr
        rcases List.append_eq_nil.mp hcontr with ⟨hc, -⟩
        rw [hc] at h2
        simp at h2
      · obtain ⟨tail, ht⟩ := top_up_append rest (comb ++ [p])
        rw [ht]
        simp

/-- What one accepted Tier A pass guarantees: the candidate result is the
greedy fill for its target count, has at least 3 places, its exact
accumulated total lies within the window, and the recorded distance is the
distance of that total to the window midpoint. -/
lemma tierA_candidate_spec (d : GeoDist) (mn mx : ℚ) (s : Coord)
    (sorted : List ScoredPlace) (t : ℕ) (cd : List ScoredPlace × ℚ)
    (h : tierA_candidate d mn mx s sorted t = some cd) :
    cd.1 = fill_loop d mx t sorted [] 0 ∧ 3 ≤ cd.1.length ∧
    mn ≤ (calculate_total_route_time d cd.1 s).1 ∧
    (calculate_total_route_time d cd.1 s).1 ≤ mx ∧
    cd.2 = midpoint_diff mn mx (calculate_total_route_time d cd.1 s).1 := by
  simp only [tierA_candidate] at h
  split_ifs at h with h1 h2
  · have hcd := (Option.some_inj.mp h).symm
    subst hcd
    exact ⟨rfl, h1, h2.1, h2.2, rfl⟩

/-- The Tier A running best is only ever replaced by a produced candidate. -/
lemma tierA_step_origin (d : GeoDist) (mn mx : ℚ) (s : Coord)
    (sorted : List ScoredPlace) (acc : Option (List ScoredPlace × ℚ))
    (t : ℕ) (cd : List ScoredPlace × ℚ)
    (h : tierA_step d mn mx s sorted acc t = some cd) :
    tierA_candidate d mn mx s sorted t = some cd ∨ acc = some cd := by
  unfold tierA_step at h
  rcases hc : tierA_candidate d mn mx s sorted t with - | cd0 <;> rw [hc] at h
  · exact Or.inr h
  · rcases acc with - | bd
    · have h' : some cd0 = some cd := h
      exact Or.inl h'
    · have h' : (if cd0.2 < bd.2 then some cd0 else some bd) = some cd := h
      split_ifs at h' with hlt
      · exact Or.inl h'
      · exact Or.inr h'

/-- After folding in a pass that produced a candidate, the running best is
present and no farther from the midpoint than that candidate. -/
lemma tierA_step_le_candidate (d : GeoDist) (mn mx : ℚ) (s : Coord)
    (sorted : List ScoredPlace) (acc : Option (List ScoredPlace × ℚ))
    (t : ℕ) (cd' : List ScoredPlace × ℚ)
    (h : tierA_candidate d mn mx s sorted t = some cd') :
    ∃ bd', tierA_step d mn mx s sorted acc t = some bd' ∧ bd'.2 ≤ cd'.2 := by
  unfold tierA_step
  rw [h]
  cases acc with
  | none => exact ⟨cd', rfl, le_refl _⟩
  | some bd =>
    by_cases hlt : cd'.2 < bd.2
    · exact ⟨cd', by simp only [if_pos hlt], le_refl _⟩
    · exact ⟨bd, by simp only [if_neg hlt], le_of_not_lt hlt⟩

/-- Folding in one pass never pushes the running best farther from the
midpoint. -/
lemma tierA_step_le_acc (d : GeoDist) (mn mx : ℚ) (s : Coord)
    (sorted : List ScoredPlace) (acc : Option (List ScoredPlace × ℚ))
    (t : ℕ) (bd : List ScoredPlace × ℚ) (h : acc = some bd) :
    ∃ bd', tierA_step d mn mx s sorted acc t = some bd' ∧ bd'.2 ≤ bd.2 := by
  subst h
  unfold tierA_step
  rcases hc : tierA_candidate d mn mx s sorted t with - | cd0
  · exact ⟨bd, rfl, le_refl _⟩
  · by_cases hlt : cd0.2 < bd.2
    · exact ⟨cd0, by simp only [if_pos hlt], le_of_lt hlt⟩
    · exact ⟨bd, by simp only [if_neg hlt], le_refl _⟩

/-- The Tier A fold over any sequence of target counts: the final best is
either the initial best or a candidate produced by some processed pass, it
is no farther from the midpoint than any produced candidate, and no farther
than the initial best. -/
lemma tierA_foldl_spec (d : GeoDist) (mn mx : ℚ) (s : Coord)
    (sorted : List ScoredPlace) :
    ∀ (ts : List ℕ) (acc : Option (List ScoredPlace × ℚ))
      (cd : List ScoredPlace × ℚ),
      ts.foldl (tierA_step d mn mx s sorted) acc = some cd →
      (acc = some cd ∨
        ∃ t ∈ ts, tierA_candidate d mn mx s sorted t = some cd) ∧
      (∀ t ∈ ts, ∀ cd', tierA_candidate d mn mx s sorted t = some cd' →
        cd.2 ≤ cd'.2) ∧
      (∀ bd, acc = some bd → cd.2 ≤ bd.2) := by
  intro ts
  induction ts with
  | nil =>
    intro acc cd h
    simp only [List.foldl_nil] at h
    refine ⟨Or.inl h, by simp, ?_⟩
    intro bd hbd
    rw [h] at hbd
    rw [Option.some_inj] at hbd
    rw [hbd]
  | cons t ts' ih =>
    intro acc cd h
    simp only [List.foldl_cons] at h
    obtain ⟨horig, hmin, hacc⟩ := ih (tierA_step d mn mx s sorted acc t) cd h
    refine ⟨?_, ?_, ?_⟩
    · rcases horig with h' | ⟨t', ht', hc'⟩
      · rcases tierA_step_origin d mn mx s sorted acc t cd h' with hc | hacc'
        · exact Or.inr ⟨t, List.mem_cons_self _ _, hc⟩
        · exact Or.inl hacc'
      · exact Or.inr ⟨t', List.mem_cons_of_mem _ ht', hc'⟩
    · intro t' ht' cd' hc'
      rcases List.mem_cons.mp ht' with heq | ht''
      · subst heq
        obtain ⟨bd', hstep, hle⟩ :=
          tierA_step_le_candidate d mn mx s sorted acc t' cd' hc'
        exact (hacc bd' hstep).trans hle
      · exact hmin t' ht'' cd' hc'
    · intro bd hbd
      obtain ⟨bd', hstep, hle⟩ :=
        tierA_step_le_acc d mn mx s sorted acc t bd hbd
      exact (hacc bd' hstep).trans hle

/-- What a successful Tier A guarantees: the selected candidate was produced
by one of the passes with target counts 5, 4, 3, and its distance to the
window midpoint is minimal among all produced candidates. -/
lemma tierA_select_spec (d : GeoDist) (mn mx : ℚ) (s : Coord)
    (sorted : List ScoredPlace) (cd : List ScoredPlace × ℚ)
    (h : tierA_select d mn mx s sorted = some cd) :
    (∃ t ∈ ([5, 4, 3] : List ℕ),
      tierA_candidate d mn mx s sorted t = some cd) ∧
    (∀ t ∈ ([5, 4, 3] : List ℕ), ∀ cd',
      tierA_candidate d mn mx s sorted t = some cd' → cd.2 ≤ cd'.2) := by
  obtain ⟨ho, hm, -⟩ := tierA_foldl_spec d mn mx s sorted [5, 4, 3] none cd h
  refine ⟨?_, hm⟩
  rcases ho with h' | h'
  · exact absurd h' (by simp)
  · exact h'

/-- Tier A applied to an empty candidate list produces nothing. -/
lemma tierA_select_nil (d : GeoDist) (mn mx : ℚ) (s : Coord) :
    tierA_select d mn mx s [] = none := by
  simp [tierA_select, tierA_step, tierA_candidate, fill_loop]

/-- C1: whenever Tier A yields a result, find_optimal_places returns that
combination unchanged, its exact accumulated route time lies within the
window [min_time, max_time], its recorded distance is the distance of that
total to the window midpoint, the combination was produced by one of the
passes with target counts 5, 4, 3, and among all window-satisfying
combinations produced across the three passes its distance to the midpoint
is smallest. -/
theorem find_optimal_places_tierA (d : GeoDist) (catalog : List (Place × ℚ))
    (mn mx : ℚ) (s : Coord) (c : List ScoredPlace) (diff : ℚ)
    (h : tierA_select d mn mx s (rankedCandidates d s catalog) = some (c, diff)) :
    find_optimal_places d catalog mn mx s = c ∧
    mn ≤ (calculate_total_route_time d c s).1 ∧
    (calculate_total_route_time d c s).1 ≤ mx ∧
    diff = midpoint_diff mn mx ((calculate_total_route_time d c s).1) ∧
    (∃ t ∈ ([5, 4, 3] : List ℕ),
      tierA_candidate d mn mx s (rankedCandidates d s catalog) t =
        some (c, diff)) ∧
    (∀ t ∈ ([5, 4, 3] : List ℕ), ∀ cd',
      tierA_candidate d mn mx s (rankedCandidates d s catalog) t = some cd' →
        diff ≤ cd'.2) := by
  obtain ⟨hex, hmin⟩ := tierA_select_spec d mn mx s _ _ h
  obtain ⟨t0, ht0, hc0⟩ := hex
  obtain ⟨-, hlen, hmn, hmx, hdiff⟩ := tierA_candidate_spec d mn mx s _ t0 _ hc0
  have hlen' : 3 ≤ c.length := hlen
  have hcat : ¬ catalog.isEmpty = true := by
    intro hne
    have hce : catalog = [] := List.isEmpty_iff.mp hne
    subst hce
    have hr : rankedCandidates d s [] = [] := by
      simp [rankedCandidates, scoredPlaces, sortCandidates]
    rw [hr, tierA_select_nil] at h
    exact absurd h (by simp)
  refine ⟨?_, hmn, hmx, hdiff, ⟨t0, ht0, hc0⟩,
    fun t ht cd' hcd' => hmin t ht cd' hcd'⟩
  unfold find_optimal_places
  rw [if_neg hcat]
  simp only [select_from_ranked, h]
  rw [if_neg]
  rintro ⟨hl, -⟩
  have hl' : c.length < 3 := hl
  omega

/-- The result of the tier pipeline is either a greedy fill for some target
count of at most 5, or such a fill topped up by Tier C. -/
lemma select_from_ranked_shape (d : GeoDist) (mn mx : ℚ) (s : Coord)
    (size : ℕ) (sorted : List ScoredPlace) :
    ∃ t : ℕ, t ≤ 5 ∧
      (select_from_ranked d mn mx s size sorted =
          fill_loop d mx t sorted [] 0 ∨
        select_from_ranked d mn mx s size sorted =
          top_up sorted (fill_loop d mx t sorted [] 0)) := by
  rcases hA : tierA_select d mn mx s sorted with - | cd
  · refine ⟨5, le_refl 5, ?_⟩
    simp only [select_from_ranked, hA]
    split_ifs with hg
    · exact Or.inr rfl
    · exact Or.inl rfl
  · obtain ⟨⟨t0, ht0, hc0⟩, -⟩ := tierA_select_spec d mn mx s sorted cd hA
    obtain ⟨hfill, -⟩ := tierA_candidate_spec d mn mx s sorted t0 cd hc0
    have ht5 : t0 ≤ 5 := by
      simp only [List.mem_cons, List.mem_singleton] at ht0
      rcases ht0 with rfl | rfl | h
      · exact le_refl 5
      · omega
      · simp at h; omega
    refine ⟨t0, ht5, ?_⟩
    simp only [select_from_ranked, hA]
    split_ifs with hg
    · exact Or.inr (by rw [hfill])
    · exact Or.inl hfill

/-- Every result of the tier pipeline consists of distinct entries drawn
from the ranked candidate list, and holds at most 5 of them. -/
lemma select_from_ranked_bounds (d : GeoDist) (mn mx : ℚ) (s : Coord)
    (size : ℕ) (sorted : List ScoredPlace) (hnd : sorted.Nodup) :
    (select_from_ranked d mn mx s size sorted).Nodup ∧
    (∀ q ∈ select_from_ranked d mn mx s size sorted, q ∈ sorted) ∧
    (select_from_ranked d mn mx s size sorted).length ≤ 5 := by
  obtain ⟨t, ht5, hshape⟩ := select_from_ranked_shape d mn mx s size sorted
  have hfn : (fill_loop d mx t sorted [] 0).Nodup :=
    fill_loop_nodup d mx t sorted [] 0 List.nodup_nil
  have hfs : ∀ q ∈ fill_loop d mx t sorted [] 0, q ∈ sorted := by
    intro q hq
    rcases fill_loop_subset d mx t sorted [] 0 q hq with h' | h'
    · simp at h'
    · exact h'
  have hfl : (fill_loop d mx t sorted [] 0).length ≤ 5 := by
    have := fill_loop_length_le d mx t sorted [] 0
    simp only [List.length_nil] at this
    omega
  rcases hshape with heq | heq <;> rw [heq]
  · exact ⟨hfn, hfs, hfl⟩
  · refine ⟨top_up_nodup sorted _ hfn, ?_, ?_⟩
    · intro q hq
      rcases top_up_subset sorted _ q hq with h' | h'
      · exact hfs q h'
      · exact h'
    · have := top_up_length_le sorted (fill_loop d mx t sorted [] 0)
      omega

/-- Over a duplicate-free ranked list of at least 3 candidates coming from a
catalog of at least 3 entries, the tier pipeline keeps at least 3 places. -/
lemma select_from_ranked_ge3 (d : GeoDist) (mn mx : ℚ) (s : Coord)
    (size : ℕ) (sorted : List ScoredPlace) (hnd : sorted.Nodup)
    (hsize : 3 ≤ size) (hsorted : 3 ≤ sorted.length) :
    3 ≤ (select_from_ranked d mn mx s size sorted).length := by
  rcases hA : tierA_select d mn mx s sorted with - | cd
  · simp only [select_from_ranked, hA]
    split_ifs with hg
    · by_contra hlt
      push_neg at hlt
      have hcov := top_up_covers sorted (fill_loop d mx 5 sorted [] 0) (by omega)
      have hsub : sorted ⊆ top_up sorted (fill_loop d mx 5 sorted [] 0) :=
        fun q hq => hcov q hq
      have := (List.subperm_of_subset hnd hsub).length_le
      omega
    · push_neg at hg
      by_cases hl : (fill_loop d mx 5 sorted [] 0).length < 3
      · have := hg hl
        omega
      · omega
  · obtain ⟨⟨t0, ht0, hc0⟩, -⟩ := tierA_select_spec d mn mx s sorted cd hA
    obtain ⟨-, hlen, -⟩ := tierA_candidate_spec d mn mx s sorted t0 cd hc0
    simp only [select_from_ranked, hA]
    split_ifs with hg
    · exfalso
      have := hg.1
      omega
    · exact hlen

/-- The tier pipeline returns a non-empty list whenever the ranked list has
at least 3 candidates, or some candidate fits the budget on its own. -/
lemma select_from_ranked_ne_nil (d : GeoDist) (mn mx : ℚ) (s : Coord)
    (size : ℕ) (sorted : List ScoredPlace)
    (h : (3 ≤ size ∧ 3 ≤ sorted.length) ∨
      ∃ p ∈ sorted, p.time_required + p.walk_time_to_place ≤ mx) :
    select_from_ranked d mn mx s size sorted ≠ [] := by
  rcases hA : tierA_select d mn mx s sorted with - | cd
  · simp only [select_from_ranked, hA]
    split_ifs with hg
    · apply top_up_ne_nil
      rcases h with ⟨-, hsor⟩ | hex
      · right
        intro hc
        rw [hc] at hsor
        simp at hsor
      · exact Or.inl (fill_loop_ne_nil d mx 5 (by omega) sorted hex)
    · push_neg at hg
      rcases h with ⟨hsz, hsor⟩ | hex
      · by_cases hl : (fill_loop d mx 5 sorted [] 0).length < 3
        · have := hg hl
          omega
        · intro hc
          rw [hc] at hl
          simp at hl
      · exact fill_loop_ne_nil d mx 5 (by omega) sorted hex
  · obtain ⟨⟨t0, ht0, hc0⟩, -⟩ := tierA_select_spec d mn mx s sorted cd hA
    obtain ⟨-, hlen, -⟩ := tierA_candidate_spec d mn mx s sorted t0 cd hc0
    simp only [select_from_ranked, hA]
    split_ifs with hg
    · exfalso
      have := hg.1
      omega
    · intro hc
      rw [hc] at hlen
      simp at hlen

/-- The stable sort is a permutation of the scored list. -/
lemma rankedCandidates_perm (d : GeoDist) (s : Coord)
    (catalog : List (Place × ℚ)) :
    (rankedCandidates d s catalog).Perm (scoredPlaces d s catalog) :=
  List.mergeSort_perm _ _

/-- The ranked candidate list has one entry per catalog entry. -/
lemma rankedCandidates_length (d : GeoDist) (s : Coord)
    (catalog : List (Place × ℚ)) :
    (rankedCandidates d s catalog).length = catalog.length := by
  rw [(rankedCandidates_perm d s catalog).length_eq]
  simp [scoredPlaces]

/-- Distinct catalog ids make the scored records pairwise distinct. -/
lemma scoredPlaces_nodup (d : GeoDist) (s : Coord)
    (catalog : List (Place × ℚ))
    (hids : (catalog.map (fun pq => pq.1.id)).Nodup) :
    (scoredPlaces d s catalog).Nodup := by
  have hmap : (scoredPlaces d s catalog).map ScoredPlace.id =
      catalog.map (fun pq => pq.1.id) := by
    simp [scoredPlaces, mkScoredPlace, Function.comp]
  exact List.Nodup.of_map ScoredPlace.id (by rw [hmap]; exact hids)

/-- Distinct catalog ids make the ranked candidate list duplicate-free. -/
lemma rankedCandidates_nodup (d : GeoDist) (s : Coord)
    (catalog : List (Place × ℚ))
    (hids : (catalog.map (fun pq => pq.1.id)).Nodup) :
    (rankedCandidates d s catalog).Nodup :=
  ((rankedCandidates_perm d s catalog).nodup_iff).mpr
    (scoredPlaces_nodup d s catalog hids)

/-- C2: over a catalog with distinct ids, find_optimal_places returns
between 3 and 5 places when the catalog has at least 5 entries, and between
3 and N places when the catalog has exactly N entries with 3 ≤ N < 5. -/
theorem find_optimal_places_card (d : GeoDist) (catalog : List (Place × ℚ))
    (mn mx : ℚ) (s : Coord)
    (hids : (catalog.map (fun pq => pq.1.id)).Nodup) :
    (5 ≤ catalog.length →
      3 ≤ (find_optimal_places d catalog mn mx s).length ∧
      (find_optimal_places d catalog mn mx s).length ≤ 5) ∧
    (3 ≤ catalog.length → catalog.length < 5 →
      3 ≤ (find_optimal_places d catalog mn mx s).length ∧
      (find_optimal_places d catalog mn mx s).length ≤ catalog.length) := by
  have hnd := rankedCandidates_nodup d s catalog hids
  have hscored : (scoredPlaces d s catalog).length = catalog.length := by
    simp [scoredPlaces]
  have hne : 3 ≤ catalog.length → ¬ catalog.isEmpty = true := by
    intro h3 hc
    rw [List.isEmpty_iff.mp hc] at h3
    simp at h3
  have hge : 3 ≤ catalog.length →
      3 ≤ (find_optimal_places d catalog mn mx s).length := by
    intro h3
    rw [find_optimal_places, if_neg (hne h3)]
    exact select_from_ranked_ge3 d mn mx s _ _ hnd (by omega)
      (by rw [rankedCandidates_length]; omega)
  constructor
  · intro h5
    refine ⟨hge (by omega), ?_⟩
    rw [find_optimal_places, if_neg (hne (by omega))]
    exact (select_from_ranked_bounds d mn mx s _ _ hnd).2.2
  · intro h3 h5
    refine ⟨hge h3, ?_⟩
    rw [find_optimal_places, if_neg (hne h3)]
    obtain ⟨hrn, hrs, -⟩ := select_from_ranked_bounds d mn mx s
      (scoredPlaces d s catalog).length (rankedCandidates d s catalog) hnd
    have hsub := List.subperm_of_subset hrn fun q hq => hrs q hq
    have := hsub.length_le
    rw [rankedCandidates_length] at this
    exact this

/-- Witness for C2 on a concrete catalog of three places with distinct ids. -/
theorem find_optimal_places_card_witness :
    (5 ≤ ([(⟨1, ⟨0, 0⟩⟩, 0), (⟨2, ⟨0, 0⟩⟩, 0), (⟨3, ⟨0, 0⟩⟩, 0)] :
        List (Place × ℚ)).length →
      3 ≤ (find_optimal_places (fun _ _ => 0)
        [(⟨1, ⟨0, 0⟩⟩, 0), (⟨2, ⟨0, 0⟩⟩, 0), (⟨3, ⟨0, 0⟩⟩, 0)] 1 2 ⟨0, 0⟩).length ∧
      (find_optimal_places (fun _ _ => 0)
        [(⟨1, ⟨0, 0⟩⟩, 0), (⟨2, ⟨0, 0⟩⟩, 0), (⟨3, ⟨0, 0⟩⟩, 0)] 1 2 ⟨0, 0⟩).length ≤ 5) ∧
    (3 ≤ ([(⟨1, ⟨0, 0⟩⟩, 0), (⟨2, ⟨0, 0⟩⟩, 0), (⟨3, ⟨0, 0⟩⟩, 0)] :
        List (Place × ℚ)).length →
      ([(⟨1, ⟨0, 0⟩⟩, 0), (⟨2, ⟨0, 0⟩⟩, 0), (⟨3, ⟨0, 0⟩⟩, 0)] :
        List (Place × ℚ)).length < 5 →
      3 ≤ (find_optimal_places (fun _ _ => 0)
        [(⟨1, ⟨0, 0⟩⟩, 0), (⟨2, ⟨0, 0⟩⟩, 0), (⟨3, ⟨0, 0⟩⟩, 0)] 1 2 ⟨0, 0⟩).length ∧
      (find_optimal_places (fun _ _ => 0)
        [(⟨1, ⟨0, 0⟩⟩, 0), (⟨2, ⟨0, 0⟩⟩, 0), (⟨3, ⟨0, 0⟩⟩, 0)] 1 2 ⟨0, 0⟩).length ≤
        ([(⟨1, ⟨0, 0⟩⟩, 0), (⟨2, ⟨0, 0⟩⟩, 0), (⟨3, ⟨0, 0⟩⟩, 0)] :
          List (Place × ℚ)).length) :=
  find_optimal_places_card (fun _ _ => 0)
    [(⟨1, ⟨0, 0⟩⟩, 0), (⟨2, ⟨0, 0⟩⟩, 0), (⟨3, ⟨0, 0⟩⟩, 0)] 1 2 ⟨0, 0⟩
    (by simp)

/-- C3, amended: find_optimal_places returns a non-empty list whenever the
catalog has at least 3 places (Tier C then guarantees a result), or at least
one place whose dwell time plus its walk from the start fits within
max_time (Tier B then accepts a place); with 1 or 2 places none of which
fits, every tier leaves the result empty. -/
theorem find_optimal_places_ne_nil (d : GeoDist) (catalog : List (Place × ℚ))
    (mn mx : ℚ) (s : Coord)
    (h : 3 ≤ catalog.length ∨ ∃ pq ∈ catalog,
      calculate_time_for_place pq.2 +
        calculate_walking_time (d s pq.1.coords) / 60 ≤ mx) :
    find_optimal_places d catalog mn mx s ≠ [] := by
  have hne : ¬ catalog.isEmpty = true := by
    rcases h with h3 | ⟨pq, hpq, -⟩
    · intro hc
      rw [List.isEmpty_iff.mp hc] at h3
      simp at h3
    · intro hc
      rw [List.isEmpty_iff.mp hc] at hpq
      simp at hpq
  rw [find_optimal_places, if_neg hne]
  apply select_from_ranked_ne_nil
  rcases h with h3 | ⟨pq, hpq, hfit⟩
  · left
    refine ⟨?_, ?_⟩
    · simp only [scoredPlaces, List.length_map]
      omega
    · rw [rankedCandidates_length]
      omega
  · right
    refine ⟨mkScoredPlace d s pq.1 pq.2, ?_, ?_⟩
    · exact (rankedCandidates_perm d s catalog).mem_iff.mpr
        (List.mem_map.mpr ⟨pq, hpq, rfl⟩)
    · simpa [mkScoredPlace] using hfit

/-- Witness for the amended C3 on a concrete catalog of three places. -/
theorem find_optimal_places_ne_nil_witness :
    find_optimal_places (fun _ _ => 0)
      [(⟨1, ⟨0, 0⟩⟩, 0), (⟨2, ⟨0, 0⟩⟩, 0), (⟨3, ⟨0, 0⟩⟩, 0)] 1 2 ⟨0, 0⟩ ≠ [] :=
  find_optimal_places_ne_nil (fun _ _ => 0)
    [(⟨1, ⟨0, 0⟩⟩, 0), (⟨2, ⟨0, 0⟩⟩, 0), (⟨3, ⟨0, 0⟩⟩, 0)] 1 2 ⟨0, 0⟩
    (Or.inl (by simp))

/-- The sort comparison is total. -/
lemma candidateLE_total : ∀ a b : ScoredPlace,
    (candidateLE a b || candidateLE b a) = true := by
  intro a b
  simp only [candidateLE, Bool.or_eq_true, decide_eq_true_eq]
  rcases lt_trichotomy a.similarity_score b.similarity_score with h | h | h
  · exact Or.inr (Or.inl h)
  · rcases le_total a.distance_to_start b.distance_to_start with h' | h'
    · exact Or.inl (Or.inr ⟨h, h'⟩)
    · exact Or.inr (Or.inr ⟨h.symm, h'⟩)
  · exact Or.inl (Or.inl h)

/-- The sort comparison is transitive. -/
lemma candidateLE_trans : ∀ a b c : ScoredPlace,
    candidateLE a b = true → candidateLE b c = true →
    candidateLE a c = true := by
  intro a b c
  simp only [candidateLE, decide_eq_true_eq]
  rintro (hab | ⟨hab1, hab2⟩) (hbc | ⟨hbc1, hbc2⟩)
  · exact Or.inl (hbc.trans hab)
  · exact Or.inl (hbc1 ▸ hab)
  · exact Or.inl (by rw [hab1]; exact hbc)
  · exact Or.inr ⟨hab1.trans hbc1, hab2.trans hbc2⟩

/-- C7: the candidate list walked by the selection tiers is the scored list
sorted by similarity descending then distance-from-start ascending: it is a
permutation of the scored list, consecutive entries are ordered by the
lexicographic key, entries sharing both keys keep their catalog insertion
order (stability of the sort), and on a non-empty catalog
find_optimal_places is exactly the tier pipeline walking this ranked
list. -/
theorem rankedCandidates_spec (d : GeoDist) (catalog : List (Place × ℚ))
    (mn mx : ℚ) (s : Coord) :
    (rankedCandidates d s catalog).Perm (scoredPlaces d s catalog) ∧
    (rankedCandidates d s catalog).Pairwise (fun a b =>
      b.similarity_score < a.similarity_score ∨
        (a.similarity_score = b.similarity_score ∧
          a.distance_to_start ≤ b.distance_to_start)) ∧
    (∀ sim dst : ℚ,
      (rankedCandidates d s catalog).filter (fun x =>
        decide (x.similarity_score = sim ∧ x.distance_to_start = dst)) =
      (scoredPlaces d s catalog).filter (fun x =>
        decide (x.similarity_score = sim ∧ x.distance_to_start = dst))) ∧
    (¬ catalog.isEmpty = true →
      find_optimal_places d catalog mn mx s =
        select_from_ranked d mn mx s (scoredPlaces d s catalog).length
          (rankedCandidates d s catalog)) := by
  refine ⟨rankedCandidates_perm d s catalog, ?_, ?_, ?_⟩
  · have := List.sorted_mergeSort candidateLE_trans candidateLE_total
      (scoredPlaces d s catalog)
    refine List.Pairwise.imp ?_ this
    intro a b hab
    simpa only [candidateLE, decide_eq_true_eq] using hab
  · intro sim dst
    set p : ScoredPlace → Bool := fun x =>
      decide (x.similarity_score = sim ∧ x.distance_to_start = dst) with hp
    have hmemp : ∀ x, p x = true →
        x.similarity_score = sim ∧ x.distance_to_start = dst := by
      intro x hx
      simpa [hp] using hx
    have hpair : ((scoredPlaces d s catalog).filter p).Pairwise
        (fun a b => candidateLE a b = true) := by
      apply List.pairwise_of_forall_mem_list
      intro a ha b hb
      obtain ⟨-, hpa⟩ := List.mem_filter.mp ha
      obtain ⟨-, hpb⟩ := List.mem_filter.mp hb
      obtain ⟨ha1, ha2⟩ := hmemp a hpa
      obtain ⟨hb1, hb2⟩ := hmemp b hpb
      simp only [candidateLE, decide_eq_true_eq]
      exact Or.inr ⟨ha1.trans hb1.symm, by rw [ha2, hb2]⟩
    have hsub : ((scoredPlaces d s catalog).filter p).Sublist
        (rankedCandidates d s catalog) :=
      List.sublist_mergeSort candidateLE_trans candidateLE_total hpair
        (List.filter_sublist _)
    have hsub2 : ((scoredPlaces d s catalog).filter p).Sublist
        ((rankedCandidates d s catalog).filter p) := by
      have h2 := List.Sublist.filter p hsub
      rw [List.filter_filter] at h2
      simp only [Bool.and_self] at h2
      exact h2
    have hlen : ((rankedCandidates d s catalog).filter p).length =
        ((scoredPlaces d s catalog).filter p).length :=
      ((rankedCandidates_perm d s catalog).filter p).length_eq
    exact (hsub2.eq_of_length (hlen.symm)).symm
  · intro hne
    rw [find_optimal_places, if_neg hne]

/-- Every member of a greedy tour comes from the input list. -/
lemma greedy_tsp_mem {α : Type} [DecidableEq α] (d : GeoDist)
    (co : α → Coord) :
    ∀ (n : ℕ) (cur : Coord) (l : List α) (q : α),
      q ∈ greedy_tsp d co n cur l → q ∈ l := by
  intro n
  induction n with
  | zero => intro cur l q hq; simp [greedy_tsp] at hq
  | succ n ih =>
    intro cur l q hq
    cases l with
    | nil => simp [greedy_tsp] at hq
    | cons x rest =>
      simp only [greedy_tsp] at hq
      rcases List.mem_cons.mp hq with heq | hq'
      · rw [heq]
        exact pick_min_mem d co cur rest x
      · exact (List.erase_sublist _ _).subset (ih _ _ q hq')

/-- On a non-empty place list, the resequencer returns a non-empty tour
whose first stop is drawn from the input. -/
lemma optimize_route_sequence_shape {α : Type} [DecidableEq α] (d : GeoDist)
    (co : α → Coord) (places : List α) (s : Coord) (h : places ≠ []) :
    ∃ q rest, optimize_route_sequence d co places s = q :: rest ∧
      q ∈ places := by
  unfold optimize_route_sequence
  split_ifs with hle
  · cases places with
    | nil => exact absurd rfl h
    | cons p r =>
      cases r with
      | nil => exact ⟨p, [], rfl, by simp⟩
      | cons a b => simp at hle
  · cases places with
    | nil => exact absurd rfl h
    | cons p r =>
      refine ⟨pick_min d co s p r,
        greedy_tsp d co r.length (co (pick_min d co s p r))
          ((p :: r).erase (pick_min d co s p r)),
        rfl, pick_min_mem d co s r p⟩

/-- C10: for a non-empty catalog of raw entries (which lack the derived
time_required key) and an input list of fewer than 3 places,
generate_route_plan substitutes the first 5 raw catalog entries, the
subsequent total-time computation looks up the missing time_required key of
the first toured place, and the call fails with the missing-key error
instead of returning an itinerary. -/
theorem generate_route_plan_missing_key (d : GeoDist)
    (catalog places : List PlaceRec) (start_coords : Coord)
    (hcat : catalog ≠ [])
    (hraw : ∀ p ∈ catalog, p.time_required? = none)
    (hlen : places.length < 3) :
    generate_route_plan_totals d catalog places start_coords =
      Except.error "KeyError: time_required" := by
  unfold generate_route_plan_totals
  rw [if_pos hlen, if_neg (by simpa [List.isEmpty_iff] using hcat)]
  have h5 : ¬ 5 < (catalog.take 5).length := by
    have := catalog.length_take_le 5
    omega
  rw [if_neg h5]
  have htake_ne : catalog.take 5 ≠ [] := by
    cases catalog with
    | nil => exact absurd rfl hcat
    | cons a l => simp
  obtain ⟨q, rest, hopt, hq⟩ :=
    optimize_route_sequence_shape d PlaceRec.coords (catalog.take 5)
      start_coords htake_ne
  rw [hopt]
  have hqraw : q.time_required? = none :=
    hraw q ((List.take_sublist 5 catalog).subset hq)
  unfold calculate_total_route_time_rec
  rw [if_neg (by simp)]
  have hsum : sum_time_required (q :: rest) =
      Except.error "KeyError: time_required" := by
    simp only [sum_time_required, get_time_required, hqraw]
    rfl
  rw [hsum]
  rfl

/-- Witness for C10: a one-entry raw catalog and an empty input list. -/
theorem generate_route_plan_missing_key_witness :
    generate_route_plan_totals (fun _ _ => 0) [⟨1, ⟨0, 0⟩, none⟩] [] ⟨0, 0⟩ =
      Except.error "KeyError: time_required" :=
  generate_route_plan_missing_key (fun _ _ => 0) [⟨1, ⟨0, 0⟩, none⟩] [] ⟨0, 0⟩
    (by simp) (by simp) (by simp)

/-- C3, counterexample: a catalog holding one place whose dwell time plus
walk from the start exceeds max_time yields an empty result: Tier A cannot
reach 3 places, Tier B accepts nothing within the budget, and Tier C only
fires when the catalog has at least 3 entries, so find_optimal_places
returns the empty list although the catalog contains a place. -/
theorem find_optimal_places_empty_counterexample :
    find_optimal_places (fun _ _ => 0) [(⟨1, ⟨0, 0⟩⟩, 0)] 0 0 ⟨0, 0⟩ = [] := by
  have hsp : scoredPlaces (fun _ _ => 0) ⟨0, 0⟩ [(⟨1, ⟨0, 0⟩⟩, 0)] =
      [⟨1, ⟨0, 0⟩, 0, 0, 1/12, 1/5⟩] := by
    simp only [scoredPlaces, mkScoredPlace, calculate_walking_time,
      calculate_time_for_place, List.map_cons, List.map_nil]
    norm_num
  have hranked : rankedCandidates (fun _ _ => 0) ⟨0, 0⟩ [(⟨1, ⟨0, 0⟩⟩, 0)] =
      [⟨1, ⟨0, 0⟩, 0, 0, 1/12, 1/5⟩] := by
    rw [rankedCandidates, hsp, sortCandidates]
    exact List.mergeSort_of_sorted (List.pairwise_singleton _ _)
  have hfill : ∀ t : ℕ,
      fill_loop (fun _ _ => 0) 0 t [⟨1, ⟨0, 0⟩, 0, 0, 1/12, 1/5⟩] [] 0 = [] := by
    intro t
    rw [fill_loop]
    split_ifs with h1 h2 h3
    · rfl
    · simp at h2
    · exfalso
      norm_num [marginal_time] at h3
    · rw [fill_loop]
  have hcand : ∀ t : ℕ,
      tierA_candidate (fun _ _ => 0) 0 0 ⟨0, 0⟩
        [⟨1, ⟨0, 0⟩, 0, 0, 1/12, 1/5⟩] t = none := by
    intro t
    simp only [tierA_candidate]
    rw [hfill t]
    norm_num
  have hA : tierA_select (fun _ _ => 0) 0 0 ⟨0, 0⟩
      [⟨1, ⟨0, 0⟩, 0, 0, 1/12, 1/5⟩] = none := by
    simp only [tierA_select, List.foldl_cons, List.foldl_nil, tierA_step, hcand]
  rw [find_optimal_places, if_neg (by simp)]
  rw [hranked, hsp]
  simp only [select_from_ranked, hA, hfill 5]
  norm_num

/-- Witness for C1 on a concrete window and a concrete 3-place catalog on
which Tier A succeeds. -/
theorem find_optimal_places_tierA_witness :
    find_optimal_places (fun _ _ => 0)
      [(⟨1, ⟨0, 0⟩⟩, 0), (⟨2, ⟨0, 0⟩⟩, 0), (⟨3, ⟨0, 0⟩⟩, 0)] (1/2) 1 ⟨0, 0⟩ =
      [⟨1, ⟨0, 0⟩, 0, 0, 1/12, 1/5⟩, ⟨2, ⟨0, 0⟩, 0, 0, 1/12, 1/5⟩,
        ⟨3, ⟨0, 0⟩, 0, 0, 1/12, 1/5⟩] := by
  have hsp : scoredPlaces (fun _ _ => 0) ⟨0, 0⟩
      [(⟨1, ⟨0, 0⟩⟩, 0), (⟨2, ⟨0, 0⟩⟩, 0), (⟨3, ⟨0, 0⟩⟩, 0)] =
      [⟨1, ⟨0, 0⟩, 0, 0, 1/12, 1/5⟩, ⟨2, ⟨0, 0⟩, 0, 0, 1/12, 1/5⟩,
        ⟨3, ⟨0, 0⟩, 0, 0, 1/12, 1/5⟩] := by
    simp only [scoredPlaces, List.map_cons, List.map_nil, mkScoredPlace,
      calculate_walking_time, calculate_time_for_place]
    norm_num
  have hranked : rankedCandidates (fun _ _ => 0) ⟨0, 0⟩
      [(⟨1, ⟨0, 0⟩⟩, 0), (⟨2, ⟨0, 0⟩⟩, 0), (⟨3, ⟨0, 0⟩⟩, 0)] =
      [⟨1, ⟨0, 0⟩, 0, 0, 1/12, 1/5⟩, ⟨2, ⟨0, 0⟩, 0, 0, 1/12, 1/5⟩,
        ⟨3, ⟨0, 0⟩, 0, 0, 1/12, 1/5⟩] := by
    rw [rankedCandidates, hsp, sortCandidates]
    apply List.mergeSort_of_sorted
    norm_num [candidateLE]
  have hfill : ∀ t : ℕ, t = 5 ∨ t = 4 ∨ t = 3 →
      fill_loop (fun _ _ => 0) 1 t
        [⟨1, ⟨0, 0⟩, 0, 0, 1/12, 1/5⟩, ⟨2, ⟨0, 0⟩, 0, 0, 1/12, 1/5⟩,
          ⟨3, ⟨0, 0⟩, 0, 0, 1/12, 1/5⟩] [] 0 =
      [⟨1, ⟨0, 0⟩, 0, 0, 1/12, 1/5⟩, ⟨2, ⟨0, 0⟩, 0, 0, 1/12, 1/5⟩,
        ⟨3, ⟨0, 0⟩, 0, 0, 1/12, 1/5⟩] := by
    rintro t (rfl | rfl | rfl) <;>
      norm_num [fill_loop, marginal_time, ScoredPlace.mk.injEq,
        calculate_walking_time]
  have htotal : (calculate_total_route_time (fun _ _ => 0)
      [⟨1, ⟨0, 0⟩, 0, 0, 1/12, 1/5⟩, ⟨2, ⟨0, 0⟩, 0, 0, 1/12, 1/5⟩,
        ⟨3, ⟨0, 0⟩, 0, 0, 1/12, 1/5⟩] ⟨0, 0⟩).1 = 17/20 := by
    norm_num [calculate_total_route_time, route_walking_minutes,
      calculate_walking_time]
  have hcand : ∀ t : ℕ, t = 5 ∨ t = 4 ∨ t = 3 →
      tierA_candidate (fun _ _ => 0) (1/2) 1 ⟨0, 0⟩
        [⟨1, ⟨0, 0⟩, 0, 0, 1/12, 1/5⟩, ⟨2, ⟨0, 0⟩, 0, 0, 1/12, 1/5⟩,
          ⟨3, ⟨0, 0⟩, 0, 0, 1/12, 1/5⟩] t =
      some ([⟨1, ⟨0, 0⟩, 0, 0, 1/12, 1/5⟩, ⟨2, ⟨0, 0⟩, 0, 0, 1/12, 1/5⟩,
        ⟨3, ⟨0, 0⟩, 0, 0, 1/12, 1/5⟩], 1/10) := by
    intro t ht
    simp only [tierA_candidate]
    rw [hfill t ht, htotal]
    rw [if_pos (by norm_num), if_pos (by norm_num)]
    norm_num [midpoint_diff]
  have h : tierA_select (fun _ _ => 0) (1/2) 1 ⟨0, 0⟩
      (rankedCandidates (fun _ _ => 0) ⟨0, 0⟩
        [(⟨1, ⟨0, 0⟩⟩, 0), (⟨2, ⟨0, 0⟩⟩, 0), (⟨3, ⟨0, 0⟩⟩, 0)]) =
      some ([⟨1, ⟨0, 0⟩, 0, 0, 1/12, 1/5⟩, ⟨2, ⟨0, 0⟩, 0, 0, 1/12, 1/5⟩,
        ⟨3, ⟨0, 0⟩, 0, 0, 1/12, 1/5⟩], 1/10) := by
    rw [hranked]
    simp only [tierA_select, List.foldl_cons, List.foldl_nil, tierA_step,
      hcand 5 (Or.inl rfl), hcand 4 (Or.inr (Or.inl rfl)),
      hcand 3 (Or.inr (Or.inr rfl))]
    norm_num
  exact (find_optimal_places_tierA (fun _ _ => 0)
    [(⟨1, ⟨0, 0⟩⟩, 0), (⟨2, ⟨0, 0⟩⟩, 0), (⟨3, ⟨0, 0⟩⟩, 0)] (1/2) 1 ⟨0, 0⟩
    _ _ h).1

/-- Witness for C7 at a concrete catalog, window and start. -/
theorem rankedCandidates_spec_witness :
    (rankedCandidates (fun _ _ => 0) ⟨0, 0⟩ [(⟨1, ⟨0, 0⟩⟩, 0)]).Perm
      (scoredPlaces (fun _ _ => 0) ⟨0, 0⟩ [(⟨1, ⟨0, 0⟩⟩, 0)]) :=
  (rankedCandidates_spec (fun _ _ => 0) [(⟨1, ⟨0, 0⟩⟩, 0)] 1 2 ⟨0, 0⟩).1
